import Mathlib

/-!
Shallow embedding of `src/losses/distributionLoss.py` (class `LabelDistributionLoss`)
and verification of the specification claims about it.

Modelling conventions:
* Exact arithmetic: the constructor state is modelled over `ℚ` (computable, so
  concrete instances can be evaluated), the `forward` pass over `ℝ` (it applies
  the real sigmoid).  `castModule` coerces the constructed state into `ℝ`.
* Fallible Python code (`raise`) is modelled with `Except`: `ZeroDivisionError`
  carries the name of the statement whose division raised, `NotImplementedError`
  carries the formatted message.
* Batches are lists; an `n × 1` column tensor is a `List`.  `scores.view_as(labels)`
  together with the boolean indexing pairs score `i` with label `i`, which is
  modelled by `List.zip` (exact for equal-length inputs, the only case the spec
  considers).
* Side-effect order inside `__init__` (tensor computations, the diagnostic print,
  the raise) is modelled separately by `initTrace`, a list of events in source
  order.
-/

namespace DistPU

/-- Model of `torch.arange start stop step` in exact arithmetic: the values
`start + k*step` for `k = 0, …, ⌈(stop-start)/step⌉ - 1`. -/
def arange (start stop step : ℚ) : List ℚ :=
  (List.range ⌈(stop - start) / step⌉₊).map (fun k : ℕ => start + (k : ℚ) * step)

/-- Model of `proxy_p = np.zeros(t_size)` followed by `proxy_p[-1] = 1`
(index `-1` is the last index, `t_size - 1`). -/
def polarProxyP (t_size : ℕ) : List ℚ :=
  (List.replicate t_size 0).set (t_size - 1) 1

/-- Model of `proxy_n = np.zeros_like(proxy_p)` followed by `proxy_n[0] = 1`. -/
def polarProxyN (t_size : ℕ) : List ℚ :=
  (List.replicate t_size 0).set 0 1

/-- The two kinds of exception `__init__` can raise: `ZeroDivisionError`
(tagged with the assignment whose division raised) and `NotImplementedError`
(with the formatted message). -/
inductive InitError where
  | zeroDivision (site : String)
  | notImplemented (msg : String)
deriving DecidableEq

/-- The state a successfully constructed `LabelDistributionLoss` object holds
(the `device` field only directs memory placement and has no value-level
content, so it is not modelled). -/
structure LabelDistributionLoss (K : Type) where
  prior : K
  frac_prior : K
  step : K
  t : List K
  t_size : ℕ
  proxy_p : List K
  proxy_mix : List K
deriving DecidableEq

/-- Model of `LabelDistributionLoss.__init__(prior, device, num_bins, proxy, dist)`,
following the source statement by statement:
`frac_prior = 1.0/(2*prior)` (raises `ZeroDivisionError` iff `2*prior == 0`),
`step = 1/num_bins` (raises iff `num_bins == 0`),
`t = torch.arange(0, 1+step, step)`, `t_size = num_bins+1`,
the `dist` check (only `"L1"` accepted), the `proxy` check (only `"polar"`
accepted, building the polar one-hot proxies), and
`proxy_mix = prior*proxy_p + (1-prior)*proxy_n` elementwise. -/
def LabelDistributionLoss.init (prior : ℚ) (num_bins : ℕ) (proxy dist : String) :
    Except InitError (LabelDistributionLoss ℚ) :=
  if 2 * prior = 0 then .error (.zeroDivision "frac_prior")
  else
    let frac_prior := 1 / (2 * prior)
    if num_bins = 0 then .error (.zeroDivision "step")
    else
      let step : ℚ := 1 / (num_bins : ℚ)
      let t := arange 0 (1 + step) step
      let t_size := num_bins + 1
      if dist = "L1" then
        if proxy = "polar" then
          let proxy_p := polarProxyP t_size
          let proxy_n := polarProxyN t_size
          let proxy_mix := List.zipWith (fun a b => prior * a + (1 - prior) * b) proxy_p proxy_n
          .ok { prior := prior, frac_prior := frac_prior, step := step, t := t,
                t_size := t_size, proxy_p := proxy_p, proxy_mix := proxy_mix }
        else .error (.notImplemented ("The proxy: " ++ proxy ++ " is not defined!"))
      else .error (.notImplemented ("The distance: " ++ dist ++ " is not defined!"))

/-- Observable events during `__init__`: a tensor (or numpy array) computation,
the diagnostic print block, or a raised exception. -/
inductive InitEvent where
  | tensorComp (name : String)
  | printProxies
  | raised (err : InitError)
deriving DecidableEq

/-- Whether an event is a raised exception. -/
def InitEvent.isRaised : InitEvent → Bool
  | .raised _ => true
  | _ => false

/-- Whether an event is a tensor (or numpy array) computation. -/
def InitEvent.isTensorComp : InitEvent → Bool
  | .tensorComp _ => true
  | _ => false

/-- The side effects of `__init__` in source order.  `self.t = torch.arange(...)`
is executed before the `dist` and `proxy` checks; on success, the numpy proxy
arrays, `proxy_mix`, the diagnostic prints, the `torch.from_numpy` conversions
and the three `.to(device)` moves follow. -/
def LabelDistributionLoss.initTrace (prior : ℚ) (num_bins : ℕ) (proxy dist : String) :
    List InitEvent :=
  if 2 * prior = 0 then [.raised (.zeroDivision "frac_prior")]
  else if num_bins = 0 then [.raised (.zeroDivision "step")]
  else
    InitEvent.tensorComp "t" ::
      (if dist = "L1" then
        (if proxy = "polar" then
          [InitEvent.tensorComp "proxy_p", .tensorComp "proxy_n", .tensorComp "proxy_mix",
           .printProxies, .tensorComp "proxy_p_torch", .tensorComp "proxy_mix_torch",
           .tensorComp "t_device", .tensorComp "proxy_p_device", .tensorComp "proxy_mix_device"]
        else [InitEvent.raised (.notImplemented ("The proxy: " ++ proxy ++ " is not defined!"))])
      else [InitEvent.raised (.notImplemented ("The distance: " ++ dist ++ " is not defined!"))])

/-- Model of `LabelDistributionLoss.histogram(scores)` for a column of scores:
`hist = |scores_rep - t|`, entries strictly greater than `step` are zeroed
after the `step - hist` switch, then summed over the score dimension and
normalized by `len(scores) * step`. -/
def LabelDistributionLoss.histogram (m : LabelDistributionLoss ℚ) (scores : List ℚ) :
    List ℚ :=
  m.t.map (fun c =>
    (scores.map (fun s =>
      let h := |s - c|
      if m.step < h then 0 else m.step - h)).sum / ((scores.length : ℚ) * m.step))

/-- Model of `F.l1_loss(input, target, reduction="mean")` for equal-shape columns:
the mean of `|input - target|` over the elements. -/
noncomputable def l1_loss (input target : List ℝ) : ℝ :=
  (((input.zip target).map (fun q => |q.1 - q.2|)).sum) / (input.length : ℝ)

/-- Model of `torch.sigmoid`. -/
noncomputable def sigmoid (x : ℝ) : ℝ :=
  1 / (1 + Real.exp (-x))

/-- Model of `LabelDistributionLoss.forward(outputs, labels)`, statement by statement:
`scores = sigmoid(outputs)`; the reshapes `labels.view(-1,1)` /
`scores.view_as(labels)` pair score `i` with label `i` (modelled by `zip`);
`s_p = scores[labels == 1]`, `s_u = scores[labels == 0]`; `l_p`/`l_u` start at
`0` and are replaced by the mean L1 distances to `1` resp. `prior`
(`torch.ones_like(s_u) * self.prior`) when the subset is non-empty; the result
is `l_p + self.frac_prior * l_u`.  The method assigns no attribute of `self`,
which the explicit state-passing (returning the module unchanged) makes
visible. -/
noncomputable def LabelDistributionLoss.forward (m : LabelDistributionLoss ℝ)
    (outputs : List ℝ) (labels : List ℤ) : LabelDistributionLoss ℝ × ℝ :=
  let scores := outputs.map sigmoid
  let pairs := scores.zip labels
  let s_p := (pairs.filter (fun q => q.2 == 1)).map Prod.fst
  let s_u := (pairs.filter (fun q => q.2 == 0)).map Prod.fst
  let l_p : ℝ := if 0 < s_p.length then l1_loss s_p (s_p.map (fun _ => 1)) else 0
  let l_u : ℝ := if 0 < s_u.length then l1_loss s_u (s_u.map (fun _ => m.prior)) else 0
  (m, l_p + m.frac_prior * l_u)

/-- The constructed (`ℚ`-exact) state, viewed in `ℝ` for the forward pass. -/
noncomputable def castModule (m : LabelDistributionLoss ℚ) : LabelDistributionLoss ℝ :=
  { prior := (m.prior : ℝ), frac_prior := (m.frac_prior : ℝ), step := (m.step : ℝ),
    t := m.t.map (fun x => (x : ℝ)), t_size := m.t_size,
    proxy_p := m.proxy_p.map (fun x => (x : ℝ)),
    proxy_mix := m.proxy_mix.map (fun x => (x : ℝ)) }

/-- Mean of a list (`0` for the empty list, matching the guarded code paths). -/
noncomputable def mean (l : List ℝ) : ℝ := l.sum / (l.length : ℝ)

/-- Spec wording, for the refinement claims: `l_p` is "the mean of
`|sigmoid(output) - 1|` over the examples with label 1". -/
noncomputable def specLossLp (outputs : List ℝ) (labels : List ℤ) : ℝ :=
  mean (((outputs.zip labels).filter (fun q => q.2 == 1)).map (fun q => |sigmoid q.1 - 1|))

/-- Spec wording, for the refinement claims: `l_u` is "the mean of
`|sigmoid(output) - p|` over the examples with label 0". -/
noncomputable def specLossLu (p : ℝ) (outputs : List ℝ) (labels : List ℤ) : ℝ :=
  mean (((outputs.zip labels).filter (fun q => q.2 == 0)).map (fun q => |sigmoid q.1 - p|))

/-- Spec wording: the loss is `l_p + (1/(2p)) * l_u`. -/
noncomputable def specLoss (p : ℝ) (outputs : List ℝ) (labels : List ℤ) : ℝ :=
  specLossLp outputs labels + (1 / (2 * p)) * specLossLu p outputs labels

/-- One-hot vector predicate: length `n`, entry `1` exactly at index `j`. -/
def isOneHot (v : List ℚ) (n j : ℕ) : Prop :=
  v.length = n ∧ ∀ i < n, v.getD i 0 = if i = j then 1 else 0

/-- Inversion of a successful construction with the default `proxy = "polar"`,
`dist = "L1"`: it succeeds exactly when neither division raises, and the
resulting state is the one read off the source. -/
theorem init_ok_iff (p : ℚ) (nb : ℕ) (m : LabelDistributionLoss ℚ) :
    LabelDistributionLoss.init p nb "polar" "L1" = .ok m ↔
      2 * p ≠ 0 ∧ nb ≠ 0 ∧
        m = { prior := p, frac_prior := 1 / (2 * p), step := 1 / (nb : ℚ),
              t := arange 0 (1 + 1 / (nb : ℚ)) (1 / (nb : ℚ)), t_size := nb + 1,
              proxy_p := polarProxyP (nb + 1),
              proxy_mix := List.zipWith (fun a b => p * a + (1 - p) * b)
                (polarProxyP (nb + 1)) (polarProxyN (nb + 1)) } := by
  simp only [LabelDistributionLoss.init]
  split_ifs with h1 h2
  · simp [h1]
  · simp [h1, h2]
  · simp only [reduceIte, Except.ok.injEq]
    constructor
    · intro h
      exact ⟨h1, h2, h.symm⟩
    · intro ⟨_, _, h⟩
      exact h.symm

/-- The state built by `init (1/2) 1 "polar" "L1"`, written out explicitly. -/
def M12 : LabelDistributionLoss ℚ :=
  { prior := 1/2, frac_prior := 1, step := 1, t := [0, 1], t_size := 2,
    proxy_p := [0, 1], proxy_mix := [1/2, 1/2] }

theorem arange_unit : arange 0 (1 + 1 / ((1 : ℕ) : ℚ)) (1 / ((1 : ℕ) : ℚ)) = [0, 1] := by
  have h : ((1 + 1 / ((1 : ℕ) : ℚ)) - 0) / (1 / ((1 : ℕ) : ℚ)) = (2 : ℚ) := by norm_num
  unfold arange
  rw [h]
  rw [show ⌈(2 : ℚ)⌉₊ = 2 from Nat.ceil_ofNat 2]
  norm_num [List.range_succ]

theorem M12_init : LabelDistributionLoss.init (1/2) 1 "polar" "L1" = .ok M12 := by
  rw [init_ok_iff]
  refine ⟨by norm_num, by norm_num, ?_⟩
  rw [arange_unit, show polarProxyP 2 = [0, 1] from rfl, show polarProxyN 2 = [1, 0] from rfl]
  norm_num [M12, List.zipWith]

theorem polarProxyP_spec (n : ℕ) (hn : 0 < n) : isOneHot (polarProxyP n) n (n - 1) := by
  constructor
  · simp [polarProxyP]
  · intro i hi
    rw [List.getD_eq_getElem?_getD, polarProxyP, List.getElem?_set]
    rcases eq_or_ne i (n - 1) with h | h
    · simp [h, hn]
    · simp [Ne.symm h, h, List.getElem?_replicate, hi]

theorem polarProxyN_spec (n : ℕ) (hn : 0 < n) : isOneHot (polarProxyN n) n 0 := by
  constructor
  · simp [polarProxyN]
  · intro i hi
    rw [List.getD_eq_getElem?_getD, polarProxyN, List.getElem?_set]
    rcases eq_or_ne i 0 with h | h
    · simp [h, hn]
    · simp [Ne.symm h, h, List.getElem?_replicate, hi]

/-- C2: construction builds `proxy_p` one-hot at the last index and
`proxy_n` one-hot at the first index (both of length `num_bins + 1`), and
`proxy_mix` is elementwise `p * proxy_p + (1 - p) * proxy_n`. -/
theorem claim_C2 (p : ℚ) (nb : ℕ) (m : LabelDistributionLoss ℚ)
    (_hp : 0 < p ∧ p < 1)
    (hinit : LabelDistributionLoss.init p nb "polar" "L1" = .ok m) :
    isOneHot m.proxy_p (nb + 1) nb ∧
      isOneHot (polarProxyN (nb + 1)) (nb + 1) 0 ∧
      m.proxy_mix.length = nb + 1 ∧
      ∀ i < nb + 1,
        m.proxy_mix.getD i 0 =
          p * m.proxy_p.getD i 0 + (1 - p) * (polarProxyN (nb + 1)).getD i 0 := by
  obtain ⟨-, -, rfl⟩ := (init_ok_iff p nb m).mp hinit
  have hP := polarProxyP_spec (nb + 1) (Nat.succ_pos nb)
  have hN := polarProxyN_spec (nb + 1) (Nat.succ_pos nb)
  have hPl : (polarProxyP (nb + 1)).length = nb + 1 := hP.1
  have hNl : (polarProxyN (nb + 1)).length = nb + 1 := hN.1
  have hlen : (List.zipWith (fun a b => p * a + (1 - p) * b)
      (polarProxyP (nb + 1)) (polarProxyN (nb + 1))).length = nb + 1 := by
    rw [List.length_zipWith, hPl, hNl, min_self]
  refine ⟨by simpa using hP, hN, hlen, ?_⟩
  intro i hi
  rw [List.getD_eq_getElem (_) _ (by rw [hlen]; exact hi),
    List.getD_eq_getElem (_) _ (by rw [hPl]; exact hi),
    List.getD_eq_getElem (_) _ (by rw [hNl]; exact hi),
    List.getElem_zipWith]

theorem claim_C2_witness :
    isOneHot M12.proxy_p 2 1 ∧ isOneHot (polarProxyN 2) 2 0 ∧
      M12.proxy_mix.length = 2 ∧
      ∀ i < 2, M12.proxy_mix.getD i 0 =
        (1/2) * M12.proxy_p.getD i 0 + (1 - 1/2) * (polarProxyN 2).getD i 0 :=
  claim_C2 (1/2) 1 M12 ⟨by norm_num, by norm_num⟩ M12_init

/-- C7: in a successful construction the bin-center tensor `t` is
`[0, 1/num_bins, …, 1]` and has exactly `num_bins + 1` elements. -/
theorem claim_C7 (p : ℚ) (nb : ℕ) (m : LabelDistributionLoss ℚ)
    (_hnb : 0 < nb)
    (hinit : LabelDistributionLoss.init p nb "polar" "L1" = .ok m) :
    m.t = (List.range (nb + 1)).map (fun k : ℕ => (k : ℚ) / (nb : ℚ)) ∧
      m.t.length = nb + 1 := by
  obtain ⟨-, h2, rfl⟩ := (init_ok_iff p nb m).mp hinit
  have hnb' : ((nb : ℚ)) ≠ 0 := Nat.cast_ne_zero.mpr h2
  have ht : arange 0 (1 + 1 / (nb : ℚ)) (1 / (nb : ℚ)) =
      (List.range (nb + 1)).map (fun k : ℕ => (k : ℚ) / (nb : ℚ)) := by
    unfold arange
    have hcount : ((1 + 1 / (nb : ℚ)) - 0) / (1 / (nb : ℚ)) = ((nb : ℚ) + 1) := by
      field_simp
    rw [hcount]
    rw [show ((nb : ℚ) + 1) = (((nb + 1 : ℕ)) : ℚ) by push_cast; ring, Nat.ceil_natCast]
    refine List.map_congr_left (fun k _ => ?_)
    rw [zero_add, mul_one_div]
  refine ⟨ht, ?_⟩
  rw [ht, List.length_map, List.length_range]

theorem claim_C7_witness :
    M12.t = (List.range 2).map (fun k : ℕ => (k : ℚ) / ((1 : ℕ) : ℚ)) ∧ M12.t.length = 2 :=
  claim_C7 (1/2) 1 M12 (by norm_num) M12_init

/-- C10 as stated is false in one corner: with `prior = 0` and `num_bins = 0`
together, the `ZeroDivisionError` is raised by the `frac_prior` assignment
(executed first), not by the `step` assignment. -/
theorem claim_C10_counterexample :
    LabelDistributionLoss.init 0 0 "polar" "L1" ≠
        Except.error (.zeroDivision "step") ∧
      LabelDistributionLoss.init 0 0 "polar" "L1" =
        Except.error (.zeroDivision "frac_prior") := by
  constructor <;> simp [LabelDistributionLoss.init]

/-- C10 amended: `prior = 0` always raises the `ZeroDivisionError` at the
`frac_prior` assignment; `num_bins = 0` raises it at the `step` assignment
provided `prior ≠ 0` (otherwise the `frac_prior` division raises first). -/
theorem claim_C10_amended :
    (∀ (nb : ℕ) (proxy dist : String),
        LabelDistributionLoss.init 0 nb proxy dist =
          Except.error (.zeroDivision "frac_prior")) ∧
      (∀ (p : ℚ) (proxy dist : String), p ≠ 0 →
        LabelDistributionLoss.init p 0 proxy dist =
          Except.error (.zeroDivision "step")) := by
  constructor
  · intro nb proxy dist
    simp [LabelDistributionLoss.init]
  · intro p proxy dist hp
    simp [LabelDistributionLoss.init, mul_eq_zero, hp]

theorem claim_C10_witness :
    LabelDistributionLoss.init 0 5 "uniform" "L2" =
        Except.error (.zeroDivision "frac_prior") ∧
      LabelDistributionLoss.init (1/3) 0 "polar" "L1" =
        Except.error (.zeroDivision "step") :=
  ⟨claim_C10_amended.1 5 "uniform" "L2",
   claim_C10_amended.2 (1/3) "polar" "L1" (by norm_num)⟩

/-- C5 as stated is false about the ordering: on `dist = "L2"` the
`NotImplementedError` is indeed raised, but only after the bin-center tensor
`self.t = torch.arange(...)` has been computed, so a tensor computation occurs
strictly before the raise. -/
theorem claim_C5_counterexample :
    ((LabelDistributionLoss.initTrace (1/2) 1 "polar" "L2").takeWhile
        (fun e => !e.isRaised)).any (fun e => e.isTensorComp) = true ∧
      LabelDistributionLoss.init (1/2) 1 "polar" "L2" =
        Except.error (.notImplemented ("The distance: " ++ "L2" ++ " is not defined!")) := by
  constructor
  · have h : LabelDistributionLoss.initTrace (1/2) 1 "polar" "L2" =
        [.tensorComp "t",
         .raised (.notImplemented ("The distance: " ++ "L2" ++ " is not defined!"))] := by
      norm_num [LabelDistributionLoss.initTrace, (show ("L2" : String) ≠ "L1" by decide)]
    rw [h]
    rfl
  · norm_num [LabelDistributionLoss.init, (show ("L2" : String) ≠ "L1" by decide)]

/-- C5 amended: for numerically valid arguments (`2*prior ≠ 0`, `num_bins ≠ 0`),
a `dist` other than `"L1"` or a `proxy` other than `"polar"` raises a
`NotImplementedError` (the `dist` check first), after the bin-center tensor `t`
has been computed but before any proxy tensor computation; with both enum
values recognized, construction succeeds — these are the only two error
conditions. -/
theorem claim_C5_amended (p : ℚ) (nb : ℕ) (proxy dist : String)
    (hp : 2 * p ≠ 0) (hnb : nb ≠ 0) :
    (dist ≠ "L1" →
        LabelDistributionLoss.init p nb proxy dist =
            Except.error (.notImplemented ("The distance: " ++ dist ++ " is not defined!")) ∧
          LabelDistributionLoss.initTrace p nb proxy dist =
            [.tensorComp "t",
             .raised (.notImplemented ("The distance: " ++ dist ++ " is not defined!"))]) ∧
      (dist = "L1" → proxy ≠ "polar" →
        LabelDistributionLoss.init p nb proxy dist =
            Except.error (.notImplemented ("The proxy: " ++ proxy ++ " is not defined!")) ∧
          LabelDistributionLoss.initTrace p nb proxy dist =
            [.tensorComp "t",
             .raised (.notImplemented ("The proxy: " ++ proxy ++ " is not defined!"))]) ∧
      (dist = "L1" → proxy = "polar" →
        ∃ m, LabelDistributionLoss.init p nb proxy dist = Except.ok m) := by
  refine ⟨?_, ?_, ?_⟩
  · intro hd
    exact ⟨by simp [LabelDistributionLoss.init, hp, hnb, hd],
           by simp [LabelDistributionLoss.initTrace, hp, hnb, hd]⟩
  · intro hd hpr
    subst hd
    exact ⟨by simp [LabelDistributionLoss.init, hp, hnb, hpr],
           by simp [LabelDistributionLoss.initTrace, hp, hnb, hpr]⟩
  · intro hd hpr
    subst hd; subst hpr
    exact ⟨_, (init_ok_iff p nb _).mpr ⟨hp, hnb, rfl⟩⟩

theorem claim_C5_witness :
    (LabelDistributionLoss.init (1/2) 1 "polar" "L2" =
        Except.error (.notImplemented ("The distance: " ++ "L2" ++ " is not defined!")) ∧
      LabelDistributionLoss.initTrace (1/2) 1 "polar" "L2" =
        [.tensorComp "t",
         .raised (.notImplemented ("The distance: " ++ "L2" ++ " is not defined!"))]) ∧
    (LabelDistributionLoss.init (1/2) 1 "uniform" "L1" =
        Except.error (.notImplemented ("The proxy: " ++ "uniform" ++ " is not defined!")) ∧
      LabelDistributionLoss.initTrace (1/2) 1 "uniform" "L1" =
        [.tensorComp "t",
         .raised (.notImplemented ("The proxy: " ++ "uniform" ++ " is not defined!"))]) ∧
    (∃ m, LabelDistributionLoss.init (1/2) 1 "polar" "L1" = Except.ok m) :=
  ⟨(claim_C5_amended (1/2) 1 "polar" "L2" (by norm_num) (by norm_num)).1 (by decide),
   (claim_C5_amended (1/2) 1 "uniform" "L1" (by norm_num) (by norm_num)).2.1 rfl (by decide),
   (claim_C5_amended (1/2) 1 "polar" "L1" (by norm_num) (by norm_num)).2.2 rfl rfl⟩

/-- For a state with `t = [0,1]` and `step = 1` (the `num_bins = 1` case), the
histogram of a single score `s ∈ [0,1]` is `[1 - s, s]`. -/
theorem histogram_unitbin (m : LabelDistributionLoss ℚ) (s : ℚ)
    (ht : m.t = [0, 1]) (hstep : m.step = 1) (hs0 : 0 ≤ s) (hs1 : s ≤ 1) :
    m.histogram [s] = [1 - s, s] := by
  have habs0 : |s - 0| = s := by rw [sub_zero, abs_of_nonneg hs0]
  have habs1 : |s - 1| = 1 - s := by
    rw [abs_sub_comm, abs_of_nonneg (by linarith)]
  rw [LabelDistributionLoss.histogram]
  simp only [ht, hstep, List.map_cons, List.map_nil, List.length_cons, List.length_nil,
    habs0, habs1, List.sum_cons, List.sum_nil]
  rw [if_neg (not_lt.mpr hs1), if_neg (not_lt.mpr (by linarith : 1 - s ≤ 1))]
  norm_num

/-- C6 as stated is false: for the state constructed with `num_bins = 1`, the
histogram of the single score `1/4` is `[3/4, 1/4]` (complement first), not
`[1/4, 3/4]` as the claim's `[s, 1 - s]` requires. -/
theorem claim_C6_counterexample :
    M12.histogram [(1/4 : ℚ)] ≠ [1/4, 3/4] ∧
      LabelDistributionLoss.init (1/2) 1 "polar" "L1" = Except.ok M12 := by
  refine ⟨?_, M12_init⟩
  have hh := histogram_unitbin M12 (1/4) rfl rfl (by norm_num) (by norm_num)
  rw [hh]
  intro h
  simp only [List.cons.injEq] at h
  norm_num at h

/-- C6 amended: for a module constructed with `num_bins = 1` and a single score
`s ∈ [0,1]`, `histogram [s]` is a 2-vector summing to `1`, namely `[1 - s, s]`
(first entry `1 - s`, second entry `s`) — the reverse order of the claim. -/
theorem claim_C6_amended (p : ℚ) (m : LabelDistributionLoss ℚ) (s : ℚ)
    (hinit : LabelDistributionLoss.init p 1 "polar" "L1" = Except.ok m)
    (hs0 : 0 ≤ s) (hs1 : s ≤ 1) :
    m.histogram [s] = [1 - s, s] ∧ (m.histogram [s]).sum = 1 ∧
      (m.histogram [s]).length = 2 := by
  obtain ⟨-, -, hm⟩ := (init_ok_iff p 1 m).mp hinit
  have ht : m.t = [0, 1] := by rw [hm]; exact arange_unit
  have hstep : m.step = 1 := by
    rw [hm]
    show (1 : ℚ) / ((1 : ℕ) : ℚ) = 1
    norm_num
  have h := histogram_unitbin m s ht hstep hs0 hs1
  refine ⟨h, ?_, ?_⟩
  · rw [h]
    show (1 - s) + (s + 0) = 1
    ring
  · rw [h]
    rfl

theorem claim_C6_witness :
    M12.histogram [(1/4 : ℚ)] = [1 - 1/4, 1/4] ∧
      (M12.histogram [(1/4 : ℚ)]).sum = 1 ∧ (M12.histogram [(1/4 : ℚ)]).length = 2 :=
  claim_C6_amended (1/2) M12 (1/4) M12_init (by norm_num) (by norm_num)

theorem init_ok_fields (p : ℚ) (nb : ℕ) (m : LabelDistributionLoss ℚ)
    (h : LabelDistributionLoss.init p nb "polar" "L1" = Except.ok m) :
    m.prior = p ∧ m.frac_prior = 1 / (2 * p) ∧ 2 * p ≠ 0 := by
  obtain ⟨h1, -, rfl⟩ := (init_ok_iff p nb m).mp h
  exact ⟨rfl, rfl, h1⟩

theorem castModule_prior (m : LabelDistributionLoss ℚ) :
    (castModule m).prior = (m.prior : ℝ) := rfl

theorem castModule_frac_prior (m : LabelDistributionLoss ℚ) :
    (castModule m).frac_prior = (m.frac_prior : ℝ) := rfl

theorem map_sigmoid_zip (outputs : List ℝ) (labels : List ℤ) :
    (outputs.map sigmoid).zip labels =
      (outputs.zip labels).map (fun q => (sigmoid q.1, q.2)) := by
  rw [List.zip_map_left]
  exact List.map_congr_left (fun q _ => rfl)

theorem filter_label_map (P : ℤ → Bool) (f : ℝ → ℝ) (l : List (ℝ × ℤ)) :
    ((l.map (fun q => (f q.1, q.2))).filter (fun q => P q.2)).map Prod.fst
      = (l.filter (fun q => P q.2)).map (fun q => f q.1) := by
  rw [List.filter_map, List.map_map]
  rfl

/-- The positive/unlabeled score column of `forward`, pushed through to the raw
(output, label) pairs. -/
theorem s_subset_eq (P : ℤ → Bool) (outputs : List ℝ) (labels : List ℤ) :
    (((outputs.map sigmoid).zip labels).filter (fun q => P q.2)).map Prod.fst
      = ((outputs.zip labels).filter (fun q => P q.2)).map (fun q => sigmoid q.1) := by
  rw [map_sigmoid_zip, filter_label_map]

theorem zip_self_const (l : List ℝ) (c : ℝ) :
    l.zip (l.map (fun _ => c)) = l.map (fun a => (a, c)) := by
  induction l with
  | nil => rfl
  | cons x xs ih =>
    show (x, c) :: xs.zip (xs.map (fun _ => c)) = (x, c) :: xs.map (fun a => (a, c))
    rw [ih]

theorem l1_loss_const (l : List ℝ) (c : ℝ) :
    l1_loss l (l.map (fun _ => c)) = mean (l.map (fun s => |s - c|)) := by
  rw [l1_loss, mean, zip_self_const, List.map_map, List.length_map]
  rfl

/-- Closed form of the value `forward` returns, in terms of the raw
(output, label) pairs. -/
theorem forward_eval (m : LabelDistributionLoss ℝ) (outputs : List ℝ) (labels : List ℤ) :
    (m.forward outputs labels).2 =
      (if 0 < ((outputs.zip labels).filter (fun q => q.2 == 1)).length
        then mean (((outputs.zip labels).filter (fun q => q.2 == 1)).map
          (fun q => |sigmoid q.1 - 1|))
        else 0) +
      m.frac_prior *
      (if 0 < ((outputs.zip labels).filter (fun q => q.2 == 0)).length
        then mean (((outputs.zip labels).filter (fun q => q.2 == 0)).map
          (fun q => |sigmoid q.1 - m.prior|))
        else 0) := by
  simp only [LabelDistributionLoss.forward]
  rw [s_subset_eq (fun z => z == 1), s_subset_eq (fun z => z == 0),
    l1_loss_const, l1_loss_const]
  simp only [List.length_map, List.map_map]
  rfl

theorem filter_label_ne_nil (outputs : List ℝ) (labels : List ℤ) (a : ℤ)
    (hlen : outputs.length = labels.length) (ha : a ∈ labels) :
    0 < ((outputs.zip labels).filter (fun q => q.2 == a)).length := by
  have hmap : (outputs.zip labels).map Prod.snd = labels :=
    List.map_snd_zip _ _ (le_of_eq hlen.symm)
  rw [← hmap] at ha
  obtain ⟨q, hq, hq2⟩ := List.mem_map.mp ha
  have hmem : q ∈ (outputs.zip labels).filter (fun q => q.2 == a) :=
    List.mem_filter.mpr ⟨hq, by simp [hq2]⟩
  exact List.length_pos.mpr (List.ne_nil_of_mem hmem)

theorem filter_label_nil (outputs : List ℝ) (labels : List ℤ) (a : ℤ)
    (ha : a ∉ labels) :
    (outputs.zip labels).filter (fun q => q.2 == a) = [] := by
  rw [List.filter_eq_nil_iff]
  intro q hq
  have h2 := (List.of_mem_zip hq).2
  simp only [beq_iff_eq]
  intro h
  exact ha (h ▸ h2)

/-- C1: for a module constructed with prior `p ∈ (0,1)` and a batch with labels
in `{0,1}` containing at least one `1` and one `0`, `forward` returns exactly
`l_p + (1/(2p)) * l_u`, with `l_p` the mean of `|sigmoid(output) - 1|` over the
label-1 examples and `l_u` the mean of `|sigmoid(output) - p|` over the label-0
examples. -/
theorem claim_C1 (p : ℚ) (nb : ℕ) (m0 : LabelDistributionLoss ℚ)
    (outputs : List ℝ) (labels : List ℤ)
    (_hp : 0 < p ∧ p < 1)
    (hinit : LabelDistributionLoss.init p nb "polar" "L1" = Except.ok m0)
    (_hlab : ∀ l ∈ labels, l = 0 ∨ l = 1)
    (hlen : outputs.length = labels.length)
    (h1 : (1 : ℤ) ∈ labels) (h0 : (0 : ℤ) ∈ labels) :
    ((castModule m0).forward outputs labels).2 = specLoss (p : ℝ) outputs labels := by
  obtain ⟨hprior, hfrac, -⟩ := init_ok_fields p nb m0 hinit
  have hfracR : (castModule m0).frac_prior = 1 / (2 * (p : ℝ)) := by
    rw [castModule_frac_prior, hfrac]
    push_cast
    ring
  have hpriorR : (castModule m0).prior = (p : ℝ) := by
    rw [castModule_prior, hprior]
  rw [forward_eval, hfracR, hpriorR,
    if_pos (filter_label_ne_nil outputs labels 1 hlen h1),
    if_pos (filter_label_ne_nil outputs labels 0 hlen h0)]
  rfl

theorem claim_C1_witness :
    ((castModule M12).forward [0, 0] [1, 0]).2 =
      specLoss (((1:ℚ)/2 : ℚ) : ℝ) [0, 0] [1, 0] :=
  claim_C1 (1/2) 1 M12 [0, 0] [1, 0] ⟨by norm_num, by norm_num⟩ M12_init
    (by decide) rfl (by decide) (by decide)

/-- C3: if one of the two label subsets is empty, `forward` still returns a
value (the embedding is total: no error path exists in the method) and the
empty subset's term is exactly `0`: with no label `1` the result is
`(1/(2p)) * l_u`; with no label `0` it is `l_p` alone. -/
theorem claim_C3 (p : ℚ) (nb : ℕ) (m0 : LabelDistributionLoss ℚ)
    (outputs : List ℝ) (labels : List ℤ)
    (_hp : 0 < p ∧ p < 1)
    (hinit : LabelDistributionLoss.init p nb "polar" "L1" = Except.ok m0)
    (_hlen : outputs.length = labels.length) :
    ((1 : ℤ) ∉ labels →
        ((castModule m0).forward outputs labels).2 =
          (1 / (2 * (p : ℝ))) * specLossLu (p : ℝ) outputs labels) ∧
      ((0 : ℤ) ∉ labels →
        ((castModule m0).forward outputs labels).2 = specLossLp outputs labels) := by
  obtain ⟨hprior, hfrac, -⟩ := init_ok_fields p nb m0 hinit
  have hfracR : (castModule m0).frac_prior = 1 / (2 * (p : ℝ)) := by
    rw [castModule_frac_prior, hfrac]
    push_cast
    ring
  have hpriorR : (castModule m0).prior = (p : ℝ) := by
    rw [castModule_prior, hprior]
  constructor
  · intro h1
    rw [forward_eval, hfracR, hpriorR, filter_label_nil outputs labels 1 h1]
    simp only [List.length_nil, lt_irrefl, if_false, zero_add]
    by_cases h : 0 < ((outputs.zip labels).filter (fun q => q.2 == 0)).length
    · rw [if_pos h]
      rfl
    · rw [if_neg h]
      rw [not_lt, Nat.le_zero, List.length_eq_zero] at h
      rw [specLossLu, h]
      simp [mean]
  · intro h0
    rw [forward_eval, hfracR, hpriorR, filter_label_nil outputs labels 0 h0]
    simp only [List.length_nil, lt_irrefl, if_false, mul_zero, add_zero]
    by_cases h : 0 < ((outputs.zip labels).filter (fun q => q.2 == 1)).length
    · rw [if_pos h]
      rfl
    · rw [if_neg h]
      rw [not_lt, Nat.le_zero, List.length_eq_zero] at h
      rw [specLossLp, h]
      simp [mean]

theorem claim_C3_witness :
    ((castModule M12).forward [0] [0]).2 =
        (1 / (2 * (((1:ℚ)/2 : ℚ) : ℝ))) * specLossLu (((1:ℚ)/2 : ℚ) : ℝ) [0] [0] ∧
      ((castModule M12).forward [0] [1]).2 = specLossLp [0] [1] :=
  ⟨(claim_C3 (1/2) 1 M12 [0] [0] ⟨by norm_num, by norm_num⟩ M12_init rfl).1 (by decide),
   (claim_C3 (1/2) 1 M12 [0] [1] ⟨by norm_num, by norm_num⟩ M12_init rfl).2 (by decide)⟩

theorem mean_nonneg (l : List ℝ) (h : ∀ x ∈ l, 0 ≤ x) : 0 ≤ mean l :=
  div_nonneg (List.sum_nonneg h) (Nat.cast_nonneg _)

theorem all_eq_zero_of_sum_eq_zero (l : List ℝ) (h0 : ∀ x ∈ l, 0 ≤ x)
    (hs : l.sum = 0) : ∀ x ∈ l, x = 0 := by
  induction l with
  | nil => intro x hx; cases hx
  | cons a as ih =>
    rw [List.sum_cons] at hs
    have ha : 0 ≤ a := h0 a (List.mem_cons_self a as)
    have has : 0 ≤ as.sum :=
      List.sum_nonneg (fun x hx => h0 x (List.mem_cons_of_mem _ hx))
    intro x hx
    rcases List.mem_cons.mp hx with rfl | hx'
    · linarith
    · exact ih (fun y hy => h0 y (List.mem_cons_of_mem _ hy)) (by linarith) x hx'

theorem all_eq_zero_of_mean_eq_zero (l : List ℝ) (h0 : ∀ x ∈ l, 0 ≤ x)
    (hne : 0 < l.length) (hm : mean l = 0) : ∀ x ∈ l, x = 0 := by
  have hlen : ((l.length : ℝ)) ≠ 0 :=
    Nat.cast_ne_zero.mpr (Nat.pos_iff_ne_zero.mp hne)
  have hsum : l.sum = 0 := by
    rw [mean, div_eq_zero_iff] at hm
    rcases hm with h | h
    · exact h
    · exact absurd h hlen
  exact all_eq_zero_of_sum_eq_zero l h0 hsum

/-- C4: for prior `p ∈ (0,1)` and labels in `{0,1}`, the loss is non-negative,
and it is `0` only if every label-1 example has `sigmoid(output) = 1` and
every label-0 example has `sigmoid(output) = p`. -/
theorem claim_C4 (p : ℚ) (nb : ℕ) (m0 : LabelDistributionLoss ℚ)
    (outputs : List ℝ) (labels : List ℤ)
    (hp : 0 < p ∧ p < 1)
    (hinit : LabelDistributionLoss.init p nb "polar" "L1" = Except.ok m0)
    (_hlab : ∀ l ∈ labels, l = 0 ∨ l = 1) :
    0 ≤ ((castModule m0).forward outputs labels).2 ∧
      (((castModule m0).forward outputs labels).2 = 0 →
        ∀ q ∈ outputs.zip labels,
          (q.2 = 1 → sigmoid q.1 = 1) ∧ (q.2 = 0 → sigmoid q.1 = (p : ℝ))) := by
  obtain ⟨hprior, hfrac, -⟩ := init_ok_fields p nb m0 hinit
  have hfracR : (castModule m0).frac_prior = 1 / (2 * (p : ℝ)) := by
    rw [castModule_frac_prior, hfrac]
    push_cast
    ring
  have hpriorR : (castModule m0).prior = (p : ℝ) := by
    rw [castModule_prior, hprior]
  have hpR : (0 : ℝ) < (p : ℝ) := by exact_mod_cast hp.1
  have hfracpos : 0 < (1 : ℝ) / (2 * (p : ℝ)) := by positivity
  rw [forward_eval, hfracR, hpriorR]
  set A := (outputs.zip labels).filter (fun q => q.2 == 1) with hA
  set B := (outputs.zip labels).filter (fun q => q.2 == 0) with hB
  set T1 : ℝ := if 0 < A.length then mean (A.map (fun q => |sigmoid q.1 - 1|)) else 0
    with hT1
  set T2 : ℝ := if 0 < B.length then mean (B.map (fun q => |sigmoid q.1 - (p : ℝ)|)) else 0
    with hT2
  have habs : ∀ (c : ℝ) (L : List (ℝ × ℤ)) (x : ℝ),
      x ∈ L.map (fun q => |sigmoid q.1 - c|) → 0 ≤ x := by
    intro c L x hx
    obtain ⟨q, -, rfl⟩ := List.mem_map.mp hx
    exact abs_nonneg _
  have hT1n : 0 ≤ T1 := by
    rw [hT1]
    split
    · exact mean_nonneg _ (habs 1 A)
    · exact le_refl 0
  have hT2n : 0 ≤ T2 := by
    rw [hT2]
    split
    · exact mean_nonneg _ (habs (p : ℝ) B)
    · exact le_refl 0
  have hft2 : 0 ≤ (1 / (2 * (p : ℝ))) * T2 := mul_nonneg hfracpos.le hT2n
  constructor
  · linarith
  · intro hres
    have h1 : T1 = 0 := by linarith
    have h2 : T2 = 0 := by
      have : (1 / (2 * (p : ℝ))) * T2 = 0 := by linarith
      rcases mul_eq_zero.mp this with h | h
      · exact absurd h (ne_of_gt hfracpos)
      · exact h
    intro q hq
    constructor
    · intro hq1
      have hqA : q ∈ A := by
        rw [hA]
        exact List.mem_filter.mpr ⟨hq, by simp [hq1]⟩
      have hApos : 0 < A.length := List.length_pos.mpr (List.ne_nil_of_mem hqA)
      rw [hT1, if_pos hApos] at h1
      have hz := all_eq_zero_of_mean_eq_zero _ (habs 1 A)
        (by rw [List.length_map]; exact hApos) h1
        (|sigmoid q.1 - 1|) (List.mem_map.mpr ⟨q, hqA, rfl⟩)
      exact sub_eq_zero.mp (abs_eq_zero.mp hz)
    · intro hq0
      have hqB : q ∈ B := by
        rw [hB]
        exact List.mem_filter.mpr ⟨hq, by simp [hq0]⟩
      have hBpos : 0 < B.length := List.length_pos.mpr (List.ne_nil_of_mem hqB)
      rw [hT2, if_pos hBpos] at h2
      have hz := all_eq_zero_of_mean_eq_zero _ (habs (p : ℝ) B)
        (by rw [List.length_map]; exact hBpos) h2
        (|sigmoid q.1 - (p : ℝ)|) (List.mem_map.mpr ⟨q, hqB, rfl⟩)
      exact sub_eq_zero.mp (abs_eq_zero.mp hz)

theorem claim_C4_witness :
    0 ≤ ((castModule M12).forward [0] [1]).2 ∧
      (((castModule M12).forward [0] [1]).2 = 0 →
        ∀ q ∈ ([0] : List ℝ).zip ([1] : List ℤ),
          (q.2 = 1 → sigmoid q.1 = 1) ∧ (q.2 = 0 → sigmoid q.1 = (((1:ℚ)/2 : ℚ) : ℝ))) :=
  claim_C4 (1/2) 1 M12 [0] [1] ⟨by norm_num, by norm_num⟩ M12_init (by decide)

/-- C8: `forward` assigns no attribute of `self`: the state after any call (with
any inputs) is the state before it, and a later call on that state returns the
same value as on the original state. -/
theorem claim_C8 (m : LabelDistributionLoss ℝ) (outputs outputs' : List ℝ)
    (labels labels' : List ℤ) :
    (m.forward outputs' labels').1 = m ∧
      (((m.forward outputs' labels').1).forward outputs labels).2 =
        (m.forward outputs labels).2 :=
  ⟨rfl, rfl⟩

/-- C9: examples whose label is neither `0` nor `1` land in neither `s_p` nor
`s_u`, so (the method being total, hence error-free) the result equals the
result on the sub-batch of examples with labels in `{0,1}`. -/
theorem claim_C9 (m : LabelDistributionLoss ℝ) (outputs : List ℝ) (labels : List ℤ) :
    m.forward outputs labels =
      m.forward
        (((outputs.zip labels).filter (fun q => q.2 == 0 || q.2 == 1)).map Prod.fst)
        (((outputs.zip labels).filter (fun q => q.2 == 0 || q.2 == 1)).map Prod.snd) := by
  have hzip : (((outputs.zip labels).filter (fun q => q.2 == 0 || q.2 == 1)).map Prod.fst).zip
      (((outputs.zip labels).filter (fun q => q.2 == 0 || q.2 == 1)).map Prod.snd) =
      (outputs.zip labels).filter (fun q => q.2 == 0 || q.2 == 1) :=
    Eq.symm (List.zip_of_prod rfl rfl)
  have hf1 : ((outputs.zip labels).filter (fun q => q.2 == 0 || q.2 == 1)).filter
      (fun q => q.2 == 1) = (outputs.zip labels).filter (fun q => q.2 == 1) := by
    rw [List.filter_filter]
    exact List.filter_congr (fun q _ => by cases h : (q.2 == 1) <;> simp [h])
  have hf0 : ((outputs.zip labels).filter (fun q => q.2 == 0 || q.2 == 1)).filter
      (fun q => q.2 == 0) = (outputs.zip labels).filter (fun q => q.2 == 0) := by
    rw [List.filter_filter]
    exact List.filter_congr (fun q _ => by cases h : (q.2 == 0) <;> simp [h])
  refine Prod.ext rfl ?_
  rw [forward_eval, forward_eval, hzip, hf1, hf0]

end DistPU
